import Mathlib

/-!
Shallow embedding of the identity subsystem of the tasktide task manager
(`src/user_manager.py` and the JWT helpers plus login handler of
`src/server.py`), together with theorems settling the specification claims.

Conventions of the embedding:
* Python `str` values manipulated character-wise (the token machinery) are
  `List Char`; `str` values used only opaquely (usernames, passwords, salts,
  digests in the credential store) are `String`.
* Python `bytes` are `List Nat`, each element intended below 256.
* The SHA-256 digest (`hashlib.sha256(...).hexdigest()`) and the keyed MAC
  (`hmac.new(secret, msg, hashlib.sha256).digest()`) are cryptographic
  library primitives; they are threaded as explicit function parameters
  (`sha`, `mac`), since no claim depends on the internals of the compression
  function, only on the codec and store structure around them.
* Fallible Python steps that raise are modelled with `Option`/`Except`;
  the `try/except` wrapper of `_verify_jwt` is an explicit catch.
-/

namespace TaskTide

/-! ## Base64url codec (`_base64url_encode` / `_base64url_decode`) -/

/-- The base64url alphabet used by `base64.urlsafe_b64encode`:
the standard alphabet with `-` and `_` in place of `+` and `/`. -/
def b64Alphabet : List Char :=
  ("ABCDEFGHIJKLMNOPQRSTUVWXYZabcdefghijklmnopqrstuvwxyz0123456789-_").toList

/-- Character for a 6-bit group. -/
def b64CharOf (n : Nat) : Char := b64Alphabet.getD n 'A'

/-- Index of a character in the base64url alphabet, `none` if absent. -/
def b64ValOf (c : Char) : Option Nat :=
  go b64Alphabet 0
where
  go : List Char → Nat → Option Nat
    | [], _ => none
    | a :: rest, i => if a = c then some i else go rest (i + 1)

/-- `base64.urlsafe_b64encode(data).rstrip(b'=')`: encode bytes three at a
time; a trailing group of one byte yields two characters and a trailing group
of two bytes yields three characters (the `=` padding is already stripped). -/
def encodeBytes : List Nat → List Char
  | [] => []
  | [a] => [b64CharOf (a / 4), b64CharOf (a % 4 * 16)]
  | [a, b] => [b64CharOf (a / 4), b64CharOf (a % 4 * 16 + b / 16), b64CharOf (b % 16 * 4)]
  | a :: b :: c :: rest =>
    b64CharOf (a / 4) :: b64CharOf (a % 4 * 16 + b / 16) ::
      b64CharOf (b % 16 * 4 + c / 64) :: b64CharOf (c % 64) :: encodeBytes rest

/-- Decode base64url characters (padding already removed) four at a time;
a trailing group of two characters yields one byte, of three characters two
bytes; a trailing single character is an error, as in `binascii`. -/
def decodeQuads : List Char → Option (List Nat)
  | [] => some []
  | [_] => none
  | [a, b] => do
    let va ← b64ValOf a
    let vb ← b64ValOf b
    pure [va * 4 + vb / 16]
  | [a, b, c] => do
    let va ← b64ValOf a
    let vb ← b64ValOf b
    let vc ← b64ValOf c
    pure [va * 4 + vb / 16, vb % 16 * 16 + vc / 4]
  | a :: b :: c :: d :: rest => do
    let va ← b64ValOf a
    let vb ← b64ValOf b
    let vc ← b64ValOf c
    let vd ← b64ValOf d
    let r ← decodeQuads rest
    pure ((va * 4 + vb / 16) :: (vb % 16 * 16 + vc / 4) :: (vc % 4 * 64 + vd) :: r)

/-- Model of `base64.urlsafe_b64decode` as used by `_base64url_decode`: the
(non-strict) decoder consumes characters up to the first `=` padding mark and
decodes them in groups of six bits.  Characters outside the base64url
alphabet make the decode fail (the Python decoder silently discards them;
no claim exercises that corner, and every input reasoned about below is
alphabet characters followed by padding). -/
def urlsafeB64decode (s : List Char) : Option (List Nat) :=
  decodeQuads (s.takeWhile (fun c => c ≠ '='))

/-- `_base64url_encode` from `src/server.py`: base64url encoding with the
`=` padding stripped, as a character list. -/
def base64urlEncode (data : List Nat) : List Char :=
  encodeBytes data

/-- `_base64url_decode` from `src/server.py`: re-append `'=' * (4 - len % 4)`
padding characters and decode. -/
def base64urlDecode (data : List Char) : Option (List Nat) :=
  urlsafeB64decode (data ++ List.replicate (4 - data.length % 4) '=')

/-! ## UTF-8 encoding (`str.encode('utf-8')`) -/

/-- UTF-8 encoding of a single character. -/
def utf8EncodeChar (c : Char) : List Nat :=
  let n := c.toNat
  if n < 128 then [n]
  else if n < 2048 then [192 + n / 64, 128 + n % 64]
  else if n < 65536 then [224 + n / 4096, 128 + n / 64 % 64, 128 + n % 64]
  else [240 + n / 262144, 128 + n / 4096 % 64, 128 + n / 64 % 64, 128 + n % 64]

/-- `s.encode('utf-8')` for a character list. -/
def utf8Encode : List Char → List Nat
  | [] => []
  | c :: rest => utf8EncodeChar c ++ utf8Encode rest

/-! ## JSON codec for the token payload

`_generate_jwt` serialises the payload dictionary with `json.dumps`, whose
default settings produce item separator `", "`, key separator `": "` and
ASCII-only output (every character outside printable ASCII is written as a
backslash-u escape, using a surrogate pair above U+FFFF).  `_verify_jwt`
recovers it with `json.loads`.  The payload minted by the login handler has
exactly the shape of a dictionary with a `username` string and an `exp`
integer, in that insertion order; the parser below models `json.loads`
restricted to byte strings of that shape (any other input is rejected,
where the Python parser would raise or yield a dictionary of another shape,
which the claims never exercise). -/

structure Payload where
  username : List Char
  exp : Int
deriving DecidableEq

/-- Lower-case hexadecimal digit. -/
def hexDigitChar (n : Nat) : Char :=
  Char.ofNat (if n < 10 then 48 + n else 87 + n)

/-- A backslash-u escape of a 16-bit value, four hex digits. -/
def u16Escape (n : Nat) : List Char :=
  ['\\', 'u', hexDigitChar (n / 4096 % 16), hexDigitChar (n / 256 % 16),
   hexDigitChar (n / 16 % 16), hexDigitChar (n % 16)]

/-- Escaping of one character as performed by `json.dumps` with its default
`ensure_ascii=True`: short escapes for quote, backslash and the five named
control characters, backslash-u escapes for the remaining control characters
and everything beyond printable ASCII, surrogate pairs above U+FFFF. -/
def escapeChar (c : Char) : List Char :=
  if c = '"' then ['\\', '"']
  else if c = '\\' then ['\\', '\\']
  else if c.toNat = 8 then ['\\', 'b']
  else if c.toNat = 9 then ['\\', 't']
  else if c.toNat = 10 then ['\\', 'n']
  else if c.toNat = 12 then ['\\', 'f']
  else if c.toNat = 13 then ['\\', 'r']
  else if c.toNat < 32 then u16Escape c.toNat
  else if c.toNat ≤ 126 then [c]
  else if c.toNat < 65536 then u16Escape c.toNat
  else u16Escape (55296 + (c.toNat - 65536) / 1024) ++
    u16Escape (56320 + (c.toNat - 65536) % 1024)

def escapeString : List Char → List Char
  | [] => []
  | c :: rest => escapeChar c ++ escapeString rest

def fromHexDigit (c : Char) : Option Nat :=
  if 48 ≤ c.toNat ∧ c.toNat ≤ 57 then some (c.toNat - 48)
  else if 97 ≤ c.toNat ∧ c.toNat ≤ 102 then some (c.toNat - 87)
  else if 65 ≤ c.toNat ∧ c.toNat ≤ 70 then some (c.toNat - 55)
  else none

/-- Prepend a character to the string part of a parse result. -/
def consStr (c : Char) : Option (List Char × List Char) → Option (List Char × List Char)
  | some (s, rest) => some (c :: s, rest)
  | none => none

/-!
`parseJString` parses the body of a JSON string up to its closing quote,
undoing the escapes of `escapeChar`; it returns the decoded string and the
input remaining after the closing quote.  Raw control characters are
rejected (strict mode of `json.loads`) and lone surrogate escapes are
rejected (the Python parser would build a string Lean characters cannot
represent; no claim reaches that corner).

The recursion is embedded with explicit fuel (`parseJStringF`), consumed
once per parsed source character; `parseJString` supplies the input length
as fuel, which always suffices because every parsed character consumes at
least one input character.  The non-recursive step functions receive the
rest of the parse as a continuation: `escStep` handles the character after
a backslash, `uStep` a backslash-u escape, `lowStep` the low half of a
surrogate pair.
-/

/-- Parse four hexadecimal digits into their 16-bit value. -/
def parseHex4 (a b cc d : Char) : Option Nat :=
  match fromHexDigit a, fromHexDigit b, fromHexDigit cc, fromHexDigit d with
  | some x, some y, some z, some w => some (x * 4096 + y * 256 + z * 16 + w)
  | _, _, _, _ => none

/-- Decode the low half of a surrogate pair and combine it with the high
half `n`. -/
def lowStep (cont : List Char → Option (List Char × List Char)) (n : Nat)
    (e f g k : Char) (r2 : List Char) : Option (List Char × List Char) :=
  match parseHex4 e f g k with
  | some m =>
    if 56320 ≤ m ∧ m ≤ 57343 then
      consStr (Char.ofNat (65536 + (n - 55296) * 1024 + (m - 56320))) (cont r2)
    else none
  | none => none

/-- Split off six characters, for the lookahead to the low surrogate. -/
def splitSix : List Char → Option (Char × Char × Char × Char × Char × Char × List Char)
  | s1 :: s2 :: e :: f :: g :: k :: r2 => some (s1, s2, e, f, g, k, r2)
  | _ => none

/-- Decode a backslash-u escape; a high surrogate must be followed by a
second backslash-u escape holding the low surrogate. -/
def uStep (cont : List Char → Option (List Char × List Char))
    (a b cc d : Char) (r : List Char) : Option (List Char × List Char) :=
  match parseHex4 a b cc d with
  | some nv =>
    if 55296 ≤ nv ∧ nv ≤ 56319 then
      match splitSix r with
      | some (s1, s2, e, f, g, k, r2) =>
        if s1 = '\\' ∧ s2 = 'u' then lowStep cont nv e f g k r2
        else none
      | none => none
    else if 56320 ≤ nv ∧ nv ≤ 57343 then none
    else consStr (Char.ofNat nv) (cont r)
  | none => none

/-- Decode the character following a backslash. -/
def escStep (cont : List Char → Option (List Char × List Char)) :
    List Char → Option (List Char × List Char)
  | [] => none
  | e :: r =>
    if e = '"' then consStr '"' (cont r)
    else if e = '\\' then consStr '\\' (cont r)
    else if e = '/' then consStr '/' (cont r)
    else if e = 'b' then consStr (Char.ofNat 8) (cont r)
    else if e = 't' then consStr (Char.ofNat 9) (cont r)
    else if e = 'n' then consStr (Char.ofNat 10) (cont r)
    else if e = 'f' then consStr (Char.ofNat 12) (cont r)
    else if e = 'r' then consStr (Char.ofNat 13) (cont r)
    else if e = 'u' then
      match r with
      | a :: b :: cc :: d :: r1 => uStep cont a b cc d r1
      | _ => none
    else none

def parseJStringF : Nat → List Char → Option (List Char × List Char)
  | _, [] => none
  | 0, _ :: _ => none
  | fuel + 1, c :: rest =>
    if c = '"' then some ([], rest)
    else if c = '\\' then escStep (parseJStringF fuel) rest
    else if c.toNat < 32 then none
    else consStr c (parseJStringF fuel rest)

def parseJString (cs : List Char) : Option (List Char × List Char) :=
  parseJStringF cs.length cs

/-! ## JSON integer codec -/

/-- Decimal digit character. -/
def digitChar (d : Nat) : Char := Char.ofNat (48 + d)

/-- Big-endian decimal digits of a natural number (`[0]` for zero). -/
def natDigitsBE (n : Nat) : List Nat :=
  if n = 0 then [0] else (Nat.digits 10 n).reverse

/-- Decimal rendering of a natural number, as `repr` inside `json.dumps`. -/
def natChars (n : Nat) : List Char := (natDigitsBE n).map digitChar

/-- Decimal rendering of an integer, as `json.dumps` prints Python ints. -/
def intChars (e : Int) : List Char :=
  if e < 0 then '-' :: natChars (-e).toNat else natChars e.toNat

def digitVal (c : Char) : Option Nat :=
  if 48 ≤ c.toNat ∧ c.toNat ≤ 57 then some (c.toNat - 48) else none

/-- Consume a maximal run of decimal digits. -/
def takeDigits : List Char → (List Nat × List Char)
  | [] => ([], [])
  | c :: rest =>
    match digitVal c with
    | some d =>
      let p := takeDigits rest
      (d :: p.1, p.2)
    | none => ([], c :: rest)

def natOfDigits (ds : List Nat) : Nat := ds.foldl (fun acc d => acc * 10 + d) 0

/-- Parse a JSON integer (optional minus sign, then digits). -/
def parseJInt (cs : List Char) : Option (Int × List Char) :=
  match cs with
  | [] => none
  | c :: rest =>
    if c = '-' then
      let p := takeDigits rest
      if p.1 = [] then none else some (-(Int.ofNat (natOfDigits p.1)), p.2)
    else
      let p := takeDigits (c :: rest)
      if p.1 = [] then none else some (Int.ofNat (natOfDigits p.1), p.2)

/-- The list does not begin with a decimal digit. -/
def noLeadDigit : List Char → Prop
  | [] => True
  | c :: _ => digitVal c = none

/-! ## JSON payload codec -/

/-- The characters of `json.dumps` output before the username string value:
an opening brace, the quoted key `username`, and the key separator. -/
def jsonLit1 : List Char := ("\x7b\"username\": \"").toList

/-- The characters between the username value and the expiration value:
item separator, quoted key `exp`, key separator. -/
def jsonLit2 : List Char := (", \"exp\": ").toList

/-- `json.dumps` of the login payload dictionary (username, then `exp`),
with the default separators and `ensure_ascii`. -/
def jsonDumpsPayload (p : Payload) : List Char :=
  jsonLit1 ++ (escapeString p.username ++ ('"' :: (jsonLit2 ++
    (intChars p.exp ++ ['\x7d']))))

/-- Consume an expected literal character sequence. -/
def expectLit : List Char → List Char → Option (List Char)
  | [], cs => some cs
  | _ :: _, [] => none
  | l :: ls, c :: cs => if c = l then expectLit ls cs else none

/-- Parse the character rendering of the payload dictionary produced by
`jsonDumpsPayload`; any other input is rejected. -/
def parsePayloadChars (cs : List Char) : Option Payload :=
  match expectLit jsonLit1 cs with
  | none => none
  | some cs1 =>
    match parseJString cs1 with
    | none => none
    | some (u, cs2) =>
      match expectLit jsonLit2 cs2 with
      | none => none
      | some cs3 =>
        match parseJInt cs3 with
        | none => none
        | some (e, cs4) =>
          if cs4 = ['\x7d'] then some ⟨u, e⟩ else none

/-- `json.loads` applied to the payload bytes: decode the bytes (ASCII
suffices for every byte string produced by the encoder) and parse. -/
def jsonLoadsPayload (bs : List Nat) : Option Payload :=
  if bs.all (fun b => b < 128) then parsePayloadChars (bs.map Char.ofNat)
  else none

/-! ## JWT codec (`_generate_jwt` / `_verify_jwt` from `src/server.py`)

The keyed MAC `hmac.new(secret, msg, hashlib.sha256).digest()` is threaded
as the explicit parameter `mac : List Nat → List Nat → List Nat`
(secret bytes, message bytes, digest bytes); no claim depends on the
internals of HMAC-SHA256, only on the codec structure surrounding it.
`datetime.utcnow()` is modelled as the integer `now` of seconds since the
epoch, and `datetime.utcfromtimestamp` by its domain check (it raises for
timestamps outside year 1..9999) followed by integer comparison.
-/

/-- `json.dumps` of the fixed JWT header dictionary of `_generate_jwt`. -/
def headerJsonChars : List Char :=
  ("\x7b\"alg\": \"HS256\", \"typ\": \"JWT\"\x7d").toList

/-- `SECRET_KEY` from `src/server.py`, as utf-8 bytes. -/
def SECRET_KEY : List Nat :=
  utf8Encode ("your_super_secret_jwt_key_please_change_this!").toList

/-- Python `token.split('.')`. -/
def splitOnDot : List Char → List (List Char)
  | [] => [[]]
  | c :: rest =>
    if c = '.' then [] :: splitOnDot rest
    else
      match splitOnDot rest with
      | [] => [[c]]
      | s :: ss => (c :: s) :: ss

/-- The value computed by `hmac.compare_digest` on the utf-8 encodings of
two strings: equality (string equality and equality of utf-8 encodings
coincide).  Only the comparison's value is modelled; its timing is outside
a functional embedding. -/
def compare_digest (a b : List Char) : Bool := decide (a = b)

/-- `_generate_jwt(payload_data, secret)` from `src/server.py`. -/
def _generate_jwt (mac : List Nat → List Nat → List Nat) (payload_data : Payload)
    (secret : List Nat) : List Char :=
  let encoded_header := base64urlEncode (utf8Encode headerJsonChars)
  let encoded_payload := base64urlEncode (utf8Encode (jsonDumpsPayload payload_data))
  let signing_input := utf8Encode (encoded_header ++ '.' :: encoded_payload)
  let signature := mac secret signing_input
  let encoded_signature := base64urlEncode signature
  encoded_header ++ '.' :: (encoded_payload ++ '.' :: encoded_signature)

/-- Domain of `datetime.utcfromtimestamp`: timestamps of years 1..9999;
outside it the call raises (`OverflowError`/`ValueError`). -/
def utcfromtimestampOk (ts : Int) : Bool :=
  decide (-62135596800 ≤ ts ∧ ts ≤ 253402300799)

/-- Exceptions that the body of `_verify_jwt` can raise: a `binascii` error
from base64 decoding, a `json.JSONDecodeError` (or a payload shape other
than the login payload, which the restricted parser also rejects), and the
error raised by `datetime.utcfromtimestamp` on an out-of-range timestamp. -/
inductive PyExn
  | binasciiError
  | jsonError
  | valueError
deriving DecidableEq

/-- The body of `_verify_jwt(token, secret)`: everything inside the `try`.
Returns `Except.error` where the Python code would raise. -/
def _verify_jwt_raw (mac : List Nat → List Nat → List Nat) (token : List Char)
    (secret : List Nat) (now : Int) : Except PyExn (Option Payload) :=
  match splitOnDot token with
  | [encoded_header, encoded_payload, received_signature] =>
    let signing_input := utf8Encode (encoded_header ++ '.' :: encoded_payload)
    let expected_signature := base64urlEncode (mac secret signing_input)
    if compare_digest received_signature expected_signature then
      match base64urlDecode encoded_payload with
      | none => Except.error PyExn.binasciiError
      | some payload_bytes =>
        match jsonLoadsPayload payload_bytes with
        | none => Except.error PyExn.jsonError
        | some payload =>
          if utcfromtimestampOk payload.exp then
            if payload.exp < now then Except.ok none
            else Except.ok (some payload)
          else Except.error PyExn.valueError
    else Except.ok none
  | _ => Except.ok none

/-- `_verify_jwt(token, secret)` from `src/server.py`: the body wrapped in
the catch-all `except`, which turns any raised exception into `None`. -/
def _verify_jwt (mac : List Nat → List Nat → List Nat) (token : List Char)
    (secret : List Nat) (now : Int) : Option Payload :=
  match _verify_jwt_raw mac token secret now with
  | Except.ok r => r
  | Except.error _ => none

/-- The login handler of `do_POST`: on successful credential verification
it mints a token whose payload holds the username and an expiration one
hour from now. -/
def login_token (mac : List Nat → List Nat → List Nat) (username : List Char)
    (secret : List Nat) (now : Int) : List Char :=
  _generate_jwt mac { username := username, exp := now + 3600 } secret

/-! ## Credential store (`src/user_manager.py`)

A row of the `users` table is a `UserRecord`; the table is a list of rows
(insertion order), `SELECT ... WHERE username = ?` with `fetchone` is the
first match, the `UNIQUE` column constraint raises `IntegrityError` on a
duplicate insert, and `UPDATE ... WHERE username = ?` rewrites every
matching row.  `hashlib.sha256(...).hexdigest()` is threaded as the
parameter `sha : String → String`, and the module constant `PEPPER` as the
parameter `pepper`.
-/

structure UserRecord where
  username : String
  password_hash : String
  salt : String
deriving DecidableEq

/-- `_hash_password(password, salt)`: digest of password + salt + pepper. -/
def _hash_password (sha : String → String) (pepper password salt : String) : String :=
  sha (password ++ salt ++ pepper)

/-- `SELECT ... FROM users WHERE username = ?` with `fetchone()`. -/
def find_user (store : List UserRecord) (username : String) : Option UserRecord :=
  store.find? (fun r => r.username == username)

/-- `register_user(username, password)`; the salt generated by
`os.urandom(16).hex()` is passed as the argument `salt`.  A duplicate
username makes the `INSERT` raise `IntegrityError`, caught to return
`False` with the store unchanged. -/
def register_user (sha : String → String) (pepper : String)
    (store : List UserRecord) (username password salt : String) :
    Bool × List UserRecord :=
  let hashed_password := _hash_password sha pepper password salt
  if store.any (fun r => r.username == username) then (false, store)
  else (true, store ++ [⟨username, hashed_password, salt⟩])

/-- `verify_user(username, password)`: look up the row; if present, compare
the recomputed digest with the stored one; all failures return `False`. -/
def verify_user (sha : String → String) (pepper : String)
    (store : List UserRecord) (username password : String) : Bool :=
  match find_user store username with
  | some r => if _hash_password sha pepper password r.salt = r.password_hash
      then true else false
  | none => false

/-- `change_password(username, old_password, new_password)`. -/
def change_password (sha : String → String) (pepper : String)
    (store : List UserRecord) (username old_password new_password : String) :
    Bool × List UserRecord :=
  match find_user store username with
  | none => (false, store)
  | some r =>
    if _hash_password sha pepper old_password r.salt ≠ r.password_hash then
      (false, store)
    else
      let new_hashed_password := _hash_password sha pepper new_password r.salt
      (true, store.map (fun s =>
        if s.username = username then { s with password_hash := new_hashed_password }
        else s))

/-! ## Behaviour of the verifier on signed tokens -/

/-! ## Helper lemmas for the claims -/

/-! ## Concrete instantiations for closed evaluations

The cryptographic primitives are parameters of the embedding; closed
counterexamples and witnesses instantiate them with simple concrete
functions, which is sound because the structural behaviour being
demonstrated does not depend on the digest values. -/

/-- A concrete MAC instantiation: a constant three-byte digest. -/
def mac0 : List Nat → List Nat → List Nat := fun _ _ => [0, 1, 2]

/-- A concrete digest instantiation for the password hasher. -/
def sha0 : String → String := fun s => s

/-- A one-user store obtained by registering alice with password `a` and
salt `s` under pepper `pep`. -/
def store1 : List UserRecord := (register_user sha0 "pep" [] "alice" "a" "s").2

/-! ## Claims -/

/-- A correctly signed token whose payload segment is not valid base64:
verifying it raises inside the body (`binascii` error). -/
def badTok : List Char :=
  'A' :: '.' :: '!' :: '.' ::
    base64urlEncode (mac0 SECRET_KEY (utf8Encode ['A', '.', '!']))

/-! ## Theorems -/

theorem b64ValOf_b64CharOf : ∀ n, n < 64 → b64ValOf (b64CharOf n) = some n := by
  decide

theorem b64CharOf_ne_eq : ∀ n, b64CharOf n ≠ '=' ∧ b64CharOf n ≠ '.' := by
  intro n
  by_cases h : n < 64
  · revert h
    revert n
    decide
  · unfold b64CharOf
    rw [List.getD_eq_default]
    · exact ⟨by decide, by decide⟩
    · have : b64Alphabet.length = 64 := by decide
      omega

theorem encodeBytes_no_pad : ∀ bs, ∀ c ∈ encodeBytes bs, c ≠ '=' ∧ c ≠ '.'
  | [] => by intro c hc; simp [encodeBytes] at hc
  | [a] => by
    intro c hc
    simp [encodeBytes] at hc
    rcases hc with h | h <;> exact h ▸ b64CharOf_ne_eq _
  | [a, b] => by
    intro c hc
    simp [encodeBytes] at hc
    rcases hc with h | h | h <;> exact h ▸ b64CharOf_ne_eq _
  | a :: b :: c' :: rest => by
    intro c hc
    simp [encodeBytes] at hc
    rcases hc with h | h | h | h | h
    · exact h ▸ b64CharOf_ne_eq _
    · exact h ▸ b64CharOf_ne_eq _
    · exact h ▸ b64CharOf_ne_eq _
    · exact h ▸ b64CharOf_ne_eq _
    · exact encodeBytes_no_pad rest c h

theorem takeWhile_ne_pad (s : List Char) (h : ∀ c ∈ s, c ≠ '=') (t : List Char) :
    (s ++ List.replicate (t.length) '=').takeWhile (fun c => c ≠ '=') = s := by
  induction s with
  | nil =>
    simp only [List.nil_append]
    cases t with
    | nil => rfl
    | cons x xs => simp [List.replicate_succ, List.takeWhile_cons]
  | cons a s ih =>
    have ha : a ≠ '=' := h a (by simp)
    simp only [List.cons_append, List.takeWhile_cons]
    rw [if_pos (by simp [ha])]
    rw [ih (fun c hc => h c (by simp [hc]))]

theorem decodeQuads_encodeBytes :
    ∀ bs, (∀ x ∈ bs, x < 256) → decodeQuads (encodeBytes bs) = some bs
  | [] => by intro _; simp [encodeBytes, decodeQuads]
  | [a] => by
    intro h
    have ha : a < 256 := h a (by simp)
    have h1 : a / 4 < 64 := by omega
    have h2 : a % 4 * 16 < 64 := by omega
    simp [encodeBytes, decodeQuads, b64ValOf_b64CharOf _ h1, b64ValOf_b64CharOf _ h2]
    omega
  | [a, b] => by
    intro h
    have ha : a < 256 := h a (by simp)
    have hb : b < 256 := h b (by simp)
    have h1 : a / 4 < 64 := by omega
    have h2 : a % 4 * 16 + b / 16 < 64 := by omega
    have h3 : b % 16 * 4 < 64 := by omega
    simp [encodeBytes, decodeQuads, b64ValOf_b64CharOf _ h1, b64ValOf_b64CharOf _ h2,
      b64ValOf_b64CharOf _ h3]
    constructor <;> omega
  | a :: b :: c :: rest => by
    intro h
    have ha : a < 256 := h a (by simp)
    have hb : b < 256 := h b (by simp)
    have hc : c < 256 := h c (by simp)
    have h1 : a / 4 < 64 := by omega
    have h2 : a % 4 * 16 + b / 16 < 64 := by omega
    have h3 : b % 16 * 4 + c / 64 < 64 := by omega
    have h4 : c % 64 < 64 := by omega
    have ih := decodeQuads_encodeBytes rest (fun x hx => h x (by simp [hx]))
    simp [encodeBytes, decodeQuads, b64ValOf_b64CharOf _ h1, b64ValOf_b64CharOf _ h2,
      b64ValOf_b64CharOf _ h3, b64ValOf_b64CharOf _ h4, ih]
    refine ⟨by omega, by omega, by omega⟩

/-- Round trip of the repository's base64url helpers: decoding an encoding
recovers the original byte string. -/
theorem base64url_round_trip (bs : List Nat) (h : ∀ x ∈ bs, x < 256) :
    base64urlDecode (base64urlEncode bs) = some bs := by
  unfold base64urlDecode base64urlEncode urlsafeB64decode
  rw [show List.replicate (4 - (encodeBytes bs).length % 4) '=' =
      List.replicate ((List.replicate (4 - (encodeBytes bs).length % 4) '=').length) '=' by
    simp]
  rw [takeWhile_ne_pad _ (fun c hc => (encodeBytes_no_pad bs c hc).1)]
  exact decodeQuads_encodeBytes bs h

theorem char_toNat_valid (c : Char) :
    c.toNat < 55296 ∨ (57344 ≤ c.toNat ∧ c.toNat < 1114112) := by
  have h := c.valid
  simp [UInt32.isValidChar, Nat.isValidChar] at h
  exact h

theorem utf8EncodeChar_lt_256 (c : Char) : ∀ x ∈ utf8EncodeChar c, x < 256 := by
  intro x hx
  have hv := char_toNat_valid c
  unfold utf8EncodeChar at hx
  by_cases h1 : c.toNat < 128
  · simp [h1] at hx; omega
  · by_cases h2 : c.toNat < 2048
    · simp [h1, h2] at hx; omega
    · by_cases h3 : c.toNat < 65536
      · simp [h1, h2, h3] at hx; omega
      · simp [h1, h2, h3] at hx; omega

theorem utf8Encode_lt_256 : ∀ s, ∀ x ∈ utf8Encode s, x < 256
  | [] => by intro x hx; simp [utf8Encode] at hx
  | c :: rest => by
    intro x hx
    simp only [utf8Encode, List.mem_append] at hx
    rcases hx with h | h
    · exact utf8EncodeChar_lt_256 c x h
    · exact utf8Encode_lt_256 rest x h

theorem utf8EncodeChar_ascii (c : Char) (h : c.toNat < 128) :
    utf8EncodeChar c = [c.toNat] := by
  unfold utf8EncodeChar
  simp [h]

theorem utf8Encode_ascii : ∀ s, (∀ c ∈ s, c.toNat < 128) →
    utf8Encode s = s.map Char.toNat
  | [] => by intro _; rfl
  | c :: rest => by
    intro h
    simp only [utf8Encode, List.map_cons]
    rw [utf8EncodeChar_ascii c (h c (by simp)),
      utf8Encode_ascii rest (fun x hx => h x (by simp [hx]))]
    rfl

theorem parseJStringF_quote (fuel : Nat) (rest : List Char) :
    parseJStringF (fuel + 1) ('"' :: rest) = some ([], rest) := by
  simp [parseJStringF]

theorem parseJStringF_backslash (fuel : Nat) (rest : List Char) :
    parseJStringF (fuel + 1) ('\\' :: rest) = escStep (parseJStringF fuel) rest := by
  simp [parseJStringF]

theorem parseJStringF_plain (fuel : Nat) (c : Char) (rest : List Char) (h1 : c ≠ '"')
    (h2 : c ≠ '\\') (h3 : ¬c.toNat < 32) :
    parseJStringF (fuel + 1) (c :: rest) = consStr c (parseJStringF fuel rest) := by
  simp [parseJStringF, h1, h2, h3]

theorem escStep_quote (cont : List Char → Option (List Char × List Char)) (r : List Char) :
    escStep cont ('"' :: r) = consStr '"' (cont r) := by
  simp [escStep]

theorem escStep_backslash (cont : List Char → Option (List Char × List Char)) (r : List Char) :
    escStep cont ('\\' :: r) = consStr '\\' (cont r) := by
  simp [escStep]

theorem escStep_b (cont : List Char → Option (List Char × List Char)) (r : List Char) :
    escStep cont ('b' :: r) = consStr (Char.ofNat 8) (cont r) := by
  simp [escStep]

theorem escStep_t (cont : List Char → Option (List Char × List Char)) (r : List Char) :
    escStep cont ('t' :: r) = consStr (Char.ofNat 9) (cont r) := by
  simp [escStep]

theorem escStep_n (cont : List Char → Option (List Char × List Char)) (r : List Char) :
    escStep cont ('n' :: r) = consStr (Char.ofNat 10) (cont r) := by
  simp [escStep]

theorem escStep_f (cont : List Char → Option (List Char × List Char)) (r : List Char) :
    escStep cont ('f' :: r) = consStr (Char.ofNat 12) (cont r) := by
  simp [escStep]

theorem escStep_r (cont : List Char → Option (List Char × List Char)) (r : List Char) :
    escStep cont ('r' :: r) = consStr (Char.ofNat 13) (cont r) := by
  simp [escStep]

theorem escStep_u (cont : List Char → Option (List Char × List Char))
    (a b cc d : Char) (r : List Char) :
    escStep cont ('u' :: a :: b :: cc :: d :: r) = uStep cont a b cc d r := by
  simp [escStep]

theorem hexRound : ∀ d, d < 16 → fromHexDigit (hexDigitChar d) = some d := by
  decide

theorem parseHex4_val (n : Nat) (hn : n < 65536) :
    parseHex4 (hexDigitChar (n / 4096 % 16)) (hexDigitChar (n / 256 % 16))
      (hexDigitChar (n / 16 % 16)) (hexDigitChar (n % 16)) = some n := by
  have e1 := hexRound (n / 4096 % 16) (by omega)
  have e2 := hexRound (n / 256 % 16) (by omega)
  have e3 := hexRound (n / 16 % 16) (by omega)
  have e4 := hexRound (n % 16) (by omega)
  simp only [parseHex4, e1, e2, e3, e4]
  congr 1
  omega

theorem uStep_val (cont : List Char → Option (List Char × List Char))
    (n : Nat) (rest : List Char) (hn : n < 65536) (hs : n < 55296 ∨ 57344 ≤ n) :
    uStep cont (hexDigitChar (n / 4096 % 16)) (hexDigitChar (n / 256 % 16))
      (hexDigitChar (n / 16 % 16)) (hexDigitChar (n % 16)) rest =
      consStr (Char.ofNat n) (cont rest) := by
  simp only [uStep, parseHex4_val n hn]
  rw [if_neg (by omega), if_neg (by omega)]

theorem lowStep_val (cont : List Char → Option (List Char × List Char))
    (n lo : Nat) (rest : List Char) (hr : 56320 ≤ lo ∧ lo ≤ 57343) (hlt : lo < 65536) :
    lowStep cont n (hexDigitChar (lo / 4096 % 16)) (hexDigitChar (lo / 256 % 16))
      (hexDigitChar (lo / 16 % 16)) (hexDigitChar (lo % 16)) rest =
      consStr (Char.ofNat (65536 + (n - 55296) * 1024 + (lo - 56320))) (cont rest) := by
  simp only [lowStep, parseHex4_val lo hlt]
  rw [if_pos hr]

theorem uStep_high (cont : List Char → Option (List Char × List Char))
    (hi : Nat) (hlt : hi < 65536) (hr : 55296 ≤ hi ∧ hi ≤ 56319)
    (e f g k : Char) (r2 : List Char) :
    uStep cont (hexDigitChar (hi / 4096 % 16)) (hexDigitChar (hi / 256 % 16))
      (hexDigitChar (hi / 16 % 16)) (hexDigitChar (hi % 16))
      ('\\' :: 'u' :: e :: f :: g :: k :: r2) = lowStep cont hi e f g k r2 := by
  simp only [uStep, parseHex4_val hi hlt]
  rw [if_pos hr]
  simp only [splitSix]
  rw [if_pos (show True ∧ True from ⟨trivial, trivial⟩)]

theorem uStep_surrogates (cont : List Char → Option (List Char × List Char))
    (n : Nat) (rest : List Char) (h1 : 65536 ≤ n) (h2 : n < 1114112) :
    uStep cont (hexDigitChar ((55296 + (n - 65536) / 1024) / 4096 % 16))
      (hexDigitChar ((55296 + (n - 65536) / 1024) / 256 % 16))
      (hexDigitChar ((55296 + (n - 65536) / 1024) / 16 % 16))
      (hexDigitChar ((55296 + (n - 65536) / 1024) % 16))
      (u16Escape (56320 + (n - 65536) % 1024) ++ rest) =
      consStr (Char.ofNat n) (cont rest) := by
  generalize hhi : 55296 + (n - 65536) / 1024 = hi
  generalize hlo : 56320 + (n - 65536) % 1024 = lo
  have hi_lt : hi < 65536 := by omega
  have lo_lt : lo < 65536 := by omega
  rw [show u16Escape lo ++ rest =
    '\\' :: 'u' :: hexDigitChar (lo / 4096 % 16) :: hexDigitChar (lo / 256 % 16) ::
      hexDigitChar (lo / 16 % 16) :: hexDigitChar (lo % 16) :: rest from rfl]
  rw [uStep_high cont hi hi_lt (by omega)]
  rw [lowStep_val cont hi lo rest (by omega) lo_lt]
  have : 65536 + (hi - 55296) * 1024 + (lo - 56320) = n := by omega
  rw [this]

/-- Parsing undoes the escaping of one character and continues with one
unit of fuel consumed. -/
theorem parseJStringF_escapeChar (c : Char) (fuel : Nat) (rest : List Char) :
    parseJStringF (fuel + 1) (escapeChar c ++ rest) =
      consStr c (parseJStringF fuel rest) := by
  have hv := char_toNat_valid c
  by_cases hq : c = '"'
  · subst hq
    rw [show escapeChar '"' = ['\\', '"'] from rfl,
      show (['\\', '"'] : List Char) ++ rest = '\\' :: '"' :: rest from rfl,
      parseJStringF_backslash, escStep_quote]
  · by_cases hb : c = '\\'
    · subst hb
      rw [show escapeChar '\\' = ['\\', '\\'] from rfl,
        show (['\\', '\\'] : List Char) ++ rest = '\\' :: '\\' :: rest from rfl,
        parseJStringF_backslash, escStep_backslash]
    · by_cases h8 : c.toNat = 8
      · have he : escapeChar c = ['\\', 'b'] := by
          unfold escapeChar
          rw [if_neg hq, if_neg hb, if_pos h8]
        have hc : Char.ofNat 8 = c := by rw [← h8, Char.ofNat_toNat]
        rw [he, show (['\\', 'b'] : List Char) ++ rest = '\\' :: 'b' :: rest from rfl,
          parseJStringF_backslash, escStep_b, hc]
      · by_cases h9 : c.toNat = 9
        · have he : escapeChar c = ['\\', 't'] := by
            unfold escapeChar
            rw [if_neg hq, if_neg hb, if_neg h8, if_pos h9]
          have hc : Char.ofNat 9 = c := by rw [← h9, Char.ofNat_toNat]
          rw [he, show (['\\', 't'] : List Char) ++ rest = '\\' :: 't' :: rest from rfl,
            parseJStringF_backslash, escStep_t, hc]
        · by_cases h10 : c.toNat = 10
          · have he : escapeChar c = ['\\', 'n'] := by
              unfold escapeChar
              rw [if_neg hq, if_neg hb, if_neg h8, if_neg h9, if_pos h10]
            have hc : Char.ofNat 10 = c := by rw [← h10, Char.ofNat_toNat]
            rw [he, show (['\\', 'n'] : List Char) ++ rest = '\\' :: 'n' :: rest from rfl,
              parseJStringF_backslash, escStep_n, hc]
          · by_cases h12 : c.toNat = 12
            · have he : escapeChar c = ['\\', 'f'] := by
                unfold escapeChar
                rw [if_neg hq, if_neg hb, if_neg h8, if_neg h9, if_neg h10, if_pos h12]
              have hc : Char.ofNat 12 = c := by rw [← h12, Char.ofNat_toNat]
              rw [he, show (['\\', 'f'] : List Char) ++ rest = '\\' :: 'f' :: rest from rfl,
                parseJStringF_backslash, escStep_f, hc]
            · by_cases h13 : c.toNat = 13
              · have he : escapeChar c = ['\\', 'r'] := by
                  unfold escapeChar
                  rw [if_neg hq, if_neg hb, if_neg h8, if_neg h9, if_neg h10,
                    if_neg h12, if_pos h13]
                have hc : Char.ofNat 13 = c := by rw [← h13, Char.ofNat_toNat]
                rw [he, show (['\\', 'r'] : List Char) ++ rest = '\\' :: 'r' :: rest from rfl,
                  parseJStringF_backslash, escStep_r, hc]
              · by_cases hcn : c.toNat < 32
                · have he : escapeChar c = u16Escape c.toNat := by
                    unfold escapeChar
                    rw [if_neg hq, if_neg hb, if_neg h8, if_neg h9, if_neg h10,
                      if_neg h12, if_neg h13, if_pos hcn]
                  rw [he]
                  rw [show u16Escape c.toNat ++ rest =
                    '\\' :: 'u' :: hexDigitChar (c.toNat / 4096 % 16) ::
                      hexDigitChar (c.toNat / 256 % 16) :: hexDigitChar (c.toNat / 16 % 16) ::
                      hexDigitChar (c.toNat % 16) :: rest from rfl]
                  rw [parseJStringF_backslash, escStep_u,
                    uStep_val _ c.toNat rest (by omega) (by omega), Char.ofNat_toNat]
                · by_cases hp : c.toNat ≤ 126
                  · have he : escapeChar c = [c] := by
                      unfold escapeChar
                      rw [if_neg hq, if_neg hb, if_neg h8, if_neg h9, if_neg h10,
                        if_neg h12, if_neg h13, if_neg hcn, if_pos hp]
                    rw [he, show [c] ++ rest = c :: rest from rfl,
                      parseJStringF_plain fuel c rest hq hb hcn]
                  · by_cases hbmp : c.toNat < 65536
                    · have he : escapeChar c = u16Escape c.toNat := by
                        unfold escapeChar
                        rw [if_neg hq, if_neg hb, if_neg h8, if_neg h9, if_neg h10,
                          if_neg h12, if_neg h13, if_neg hcn, if_neg hp, if_pos hbmp]
                      rw [he]
                      rw [show u16Escape c.toNat ++ rest =
                        '\\' :: 'u' :: hexDigitChar (c.toNat / 4096 % 16) ::
                          hexDigitChar (c.toNat / 256 % 16) :: hexDigitChar (c.toNat / 16 % 16) ::
                          hexDigitChar (c.toNat % 16) :: rest from rfl]
                      rw [parseJStringF_backslash, escStep_u,
                        uStep_val _ c.toNat rest (by omega) (by omega), Char.ofNat_toNat]
                    · have he : escapeChar c =
                          u16Escape (55296 + (c.toNat - 65536) / 1024) ++
                            u16Escape (56320 + (c.toNat - 65536) % 1024) := by
                        unfold escapeChar
                        rw [if_neg hq, if_neg hb, if_neg h8, if_neg h9, if_neg h10,
                          if_neg h12, if_neg h13, if_neg hcn, if_neg hp, if_neg hbmp]
                      rw [he, List.append_assoc]
                      rw [show u16Escape (55296 + (c.toNat - 65536) / 1024) ++
                          (u16Escape (56320 + (c.toNat - 65536) % 1024) ++ rest) =
                        '\\' :: 'u' ::
                          hexDigitChar ((55296 + (c.toNat - 65536) / 1024) / 4096 % 16) ::
                          hexDigitChar ((55296 + (c.toNat - 65536) / 1024) / 256 % 16) ::
                          hexDigitChar ((55296 + (c.toNat - 65536) / 1024) / 16 % 16) ::
                          hexDigitChar ((55296 + (c.toNat - 65536) / 1024) % 16) ::
                          (u16Escape (56320 + (c.toNat - 65536) % 1024) ++ rest) from rfl]
                      rw [parseJStringF_backslash, escStep_u,
                        uStep_surrogates _ c.toNat rest (by omega) (by omega),
                        Char.ofNat_toNat]

/-- Parsing undoes the escaping of a whole string at the closing quote,
for any sufficient fuel of the stated shape. -/
theorem parseJStringF_escapeString : ∀ (s : List Char) (extra : Nat) (rest : List Char),
    parseJStringF (s.length + (extra + 1)) (escapeString s ++ '"' :: rest) = some (s, rest)
  | [], extra, rest => by
    rw [show escapeString [] = [] from rfl, List.nil_append, List.length_nil,
      Nat.zero_add, parseJStringF_quote]
  | c :: s, extra, rest => by
    rw [show escapeString (c :: s) = escapeChar c ++ escapeString s from rfl,
      List.append_assoc,
      show (c :: s).length + (extra + 1) = (s.length + (extra + 1)) + 1 by
        simp [List.length_cons]; omega,
      parseJStringF_escapeChar c (s.length + (extra + 1)) _,
      parseJStringF_escapeString s extra rest]
    rfl

theorem escapeChar_length_pos (c : Char) : 1 ≤ (escapeChar c).length := by
  unfold escapeChar
  split
  · simp
  · split
    · simp
    · split
      · simp
      · split
        · simp
        · split
          · simp
          · split
            · simp
            · split
              · simp
              · split
                · simp [u16Escape]
                · split
                  · simp
                  · split
                    · simp [u16Escape]
                    · simp [u16Escape]

theorem escapeString_length_ge : ∀ s : List Char, s.length ≤ (escapeString s).length
  | [] => by simp [escapeString]
  | c :: s => by
    have h1 := escapeChar_length_pos c
    have h2 := escapeString_length_ge s
    simp only [escapeString, List.length_append, List.length_cons]
    omega

/-- Parsing undoes the escaping of a whole string at the closing quote. -/
theorem parseJString_escapeString (s rest : List Char) :
    parseJString (escapeString s ++ '"' :: rest) = some (s, rest) := by
  unfold parseJString
  have hge := escapeString_length_ge s
  rw [show (escapeString s ++ '"' :: rest).length =
      s.length + (((escapeString s).length - s.length + rest.length) + 1) by
    simp [List.length_append, List.length_cons]; omega]
  exact parseJStringF_escapeString s _ rest

theorem char_toNat_ofNat_small {m : Nat} (h : m < 55296) : (Char.ofNat m).toNat = m := by
  have hv : m.isValidChar := Or.inl h
  simp [Char.ofNat, hv, Char.ofNatAux, Char.toNat]
  rfl

theorem digitVal_digitChar : ∀ d, d < 10 → digitVal (digitChar d) = some d := by
  decide

theorem digitChar_ne_minus (d : Nat) (hd : d < 10) : digitChar d ≠ '-' := by
  intro heq
  have h1 : (digitChar d).toNat = 48 + d := char_toNat_ofNat_small (by omega)
  have h2 : ('-' : Char).toNat = 45 := by decide
  rw [heq, h2] at h1
  omega

theorem takeDigits_exact : ∀ (ds : List Nat), (∀ d ∈ ds, d < 10) →
    ∀ rest, noLeadDigit rest → takeDigits (ds.map digitChar ++ rest) = (ds, rest)
  | [], _ => by
    intro rest hrest
    simp only [List.map_nil, List.nil_append]
    cases rest with
    | nil => rfl
    | cons c cs =>
      simp only [noLeadDigit] at hrest
      simp [takeDigits, hrest]
  | d :: ds, h => by
    intro rest hrest
    have hd : d < 10 := h d (by simp)
    simp only [List.map_cons, List.cons_append, takeDigits,
      digitVal_digitChar d hd, List.append_eq]
    rw [takeDigits_exact ds (fun x hx => h x (by simp [hx])) rest hrest]

theorem foldl_digits (L : List Nat) (acc : Nat) :
    List.foldl (fun a d => a * 10 + d) acc L.reverse =
      acc * 10 ^ L.length + Nat.ofDigits 10 L := by
  induction L generalizing acc with
  | nil => simp
  | cons d L ih =>
    simp only [List.reverse_cons, List.foldl_append, List.foldl_cons, List.foldl_nil,
      ih, Nat.ofDigits_cons, List.length_cons]
    ring

theorem natOfDigits_natDigitsBE (n : Nat) : natOfDigits (natDigitsBE n) = n := by
  unfold natDigitsBE natOfDigits
  by_cases h : n = 0
  · simp [h]
  · rw [if_neg h, foldl_digits]
    simp [Nat.ofDigits_digits]

theorem natDigitsBE_lt (n : Nat) : ∀ d ∈ natDigitsBE n, d < 10 := by
  intro d hd
  unfold natDigitsBE at hd
  by_cases h : n = 0
  · simp [h] at hd
    omega
  · rw [if_neg h, List.mem_reverse] at hd
    exact Nat.digits_lt_base (by norm_num) hd

theorem natDigitsBE_ne_nil (n : Nat) : natDigitsBE n ≠ [] := by
  unfold natDigitsBE
  by_cases h : n = 0
  · simp [h]
  · rw [if_neg h]
    simp [Nat.digits_ne_nil_iff_ne_zero, h]

theorem takeDigits_natChars (n : Nat) (rest : List Char) (hrest : noLeadDigit rest) :
    takeDigits (natChars n ++ rest) = (natDigitsBE n, rest) :=
  takeDigits_exact (natDigitsBE n) (natDigitsBE_lt n) rest hrest

/-- Parsing inverts the decimal rendering of an integer. -/
theorem parseJInt_intChars (e : Int) (rest : List Char) (hrest : noLeadDigit rest) :
    parseJInt (intChars e ++ rest) = some (e, rest) := by
  by_cases he : e < 0
  · rw [show intChars e = '-' :: natChars (-e).toNat by simp [intChars, he]]
    rw [List.cons_append]
    simp only [parseJInt]
    rw [if_pos trivial]
    simp only [takeDigits_natChars (-e).toNat rest hrest]
    rw [if_neg (natDigitsBE_ne_nil _)]
    rw [natOfDigits_natDigitsBE]
    have h1 : Int.ofNat ((-e).toNat) = -e := Int.toNat_of_nonneg (by omega)
    rw [h1, neg_neg]
  · rw [show intChars e = natChars e.toNat by simp [intChars, he]]
    obtain ⟨d, ds, hds⟩ := List.exists_cons_of_ne_nil (natDigitsBE_ne_nil e.toNat)
    have hnc : natChars e.toNat = digitChar d :: ds.map digitChar := by
      rw [natChars, hds]
      rfl
    have hd : d < 10 := natDigitsBE_lt e.toNat d (by rw [hds]; simp)
    rw [hnc, List.cons_append]
    simp only [parseJInt]
    rw [if_neg (digitChar_ne_minus d hd)]
    rw [show digitChar d :: (List.map digitChar ds ++ rest) = natChars e.toNat ++ rest by
      rw [hnc, List.cons_append]]
    simp only [takeDigits_natChars e.toNat rest hrest]
    rw [if_neg (natDigitsBE_ne_nil _)]
    rw [natOfDigits_natDigitsBE]
    have hcast : Int.ofNat (e.toNat) = e := Int.toNat_of_nonneg (by omega)
    rw [hcast]

theorem expectLit_pre : ∀ (L cs : List Char), expectLit L (L ++ cs) = some cs
  | [], cs => rfl
  | l :: ls, cs => by
    simp only [List.cons_append, expectLit, if_pos rfl]
    exact expectLit_pre ls cs

/-- Parsing inverts serialisation of the payload. -/
theorem parsePayloadChars_dumps (p : Payload) :
    parsePayloadChars (jsonDumpsPayload p) = some p := by
  unfold jsonDumpsPayload
  simp only [parsePayloadChars, expectLit_pre jsonLit1, parseJString_escapeString,
    expectLit_pre jsonLit2,
    parseJInt_intChars p.exp ['\x7d'] (by simp [noLeadDigit]; decide)]
  rw [if_pos trivial]

theorem hexDigitChar_ascii : ∀ d, d < 16 → (hexDigitChar d).toNat < 128 := by
  decide

theorem u16Escape_ascii (n : Nat) : ∀ x ∈ u16Escape n, x.toNat < 128 := by
  intro x hx
  simp only [u16Escape, List.mem_cons, List.not_mem_nil, or_false] at hx
  rcases hx with h | h | h | h | h | h <;> subst h
  · decide
  · decide
  · exact hexDigitChar_ascii _ (Nat.mod_lt _ (by norm_num))
  · exact hexDigitChar_ascii _ (Nat.mod_lt _ (by norm_num))
  · exact hexDigitChar_ascii _ (Nat.mod_lt _ (by norm_num))
  · exact hexDigitChar_ascii _ (Nat.mod_lt _ (by norm_num))

theorem escapeChar_ascii (c : Char) : ∀ x ∈ escapeChar c, x.toNat < 128 := by
  intro x hx
  unfold escapeChar at hx
  split at hx
  · simp at hx; rcases hx with h | h <;> (subst h; decide)
  · split at hx
    · simp at hx; subst hx; decide
    · split at hx
      · simp at hx; rcases hx with h | h <;> (subst h; decide)
      · split at hx
        · simp at hx; rcases hx with h | h <;> (subst h; decide)
        · split at hx
          · simp at hx; rcases hx with h | h <;> (subst h; decide)
          · split at hx
            · simp at hx; rcases hx with h | h <;> (subst h; decide)
            · split at hx
              · simp at hx; rcases hx with h | h <;> (subst h; decide)
              · split at hx
                · exact u16Escape_ascii _ x hx
                · split at hx
                  · rename_i hle
                    simp at hx
                    subst hx
                    omega
                  · split at hx
                    · exact u16Escape_ascii _ x hx
                    · rw [List.mem_append] at hx
                      rcases hx with h | h
                      · exact u16Escape_ascii _ x h
                      · exact u16Escape_ascii _ x h

theorem escapeString_ascii : ∀ s, ∀ x ∈ escapeString s, x.toNat < 128
  | [] => by intro x hx; simp [escapeString] at hx
  | c :: s => by
    intro x hx
    simp only [escapeString, List.mem_append] at hx
    rcases hx with h | h
    · exact escapeChar_ascii c x h
    · exact escapeString_ascii s x h

theorem intChars_ascii (e : Int) : ∀ x ∈ intChars e, x.toNat < 128 := by
  intro x hx
  have hnat : ∀ n : Nat, ∀ y ∈ natChars n, y.toNat < 128 := by
    intro n y hy
    simp only [natChars, List.mem_map] at hy
    obtain ⟨d, hd, rfl⟩ := hy
    have := natDigitsBE_lt n d hd
    rw [show (digitChar d).toNat = 48 + d from char_toNat_ofNat_small (by omega)]
    omega
  unfold intChars at hx
  split at hx
  · rcases List.mem_cons.mp hx with h | h
    · subst h; decide
    · exact hnat _ x h
  · exact hnat _ x hx

theorem jsonDumpsPayload_ascii (p : Payload) :
    ∀ x ∈ jsonDumpsPayload p, x.toNat < 128 := by
  intro x hx
  have hlit1 : ∀ y ∈ jsonLit1, y.toNat < 128 := by decide
  have hlit2 : ∀ y ∈ jsonLit2, y.toNat < 128 := by decide
  simp only [jsonDumpsPayload, List.mem_append, List.mem_cons] at hx
  rcases hx with h | h | h | h | h
  · exact hlit1 x h
  · exact escapeString_ascii _ x h
  · subst h; decide
  · exact hlit2 x h
  · rcases h with h | h
    · exact intChars_ascii _ x h
    · simp at h
      subst h
      decide

theorem map_ofNat_toNat (cs : List Char) : (cs.map Char.toNat).map Char.ofNat = cs := by
  rw [List.map_map]
  have h : ∀ c ∈ cs, (Char.ofNat ∘ Char.toNat) c = id c := by
    intro c _
    simp [Function.comp, Char.ofNat_toNat]
  rw [List.map_congr_left h, List.map_id]

/-- `json.loads` inverts `json.dumps` followed by UTF-8 encoding on login
payloads. -/
theorem jsonLoads_dumps (p : Payload) :
    jsonLoadsPayload (utf8Encode (jsonDumpsPayload p)) = some p := by
  have hasc := jsonDumpsPayload_ascii p
  rw [utf8Encode_ascii _ hasc]
  unfold jsonLoadsPayload
  rw [if_pos (by
    rw [List.all_eq_true]
    intro b hb
    rw [List.mem_map] at hb
    obtain ⟨c, hc, rfl⟩ := hb
    simpa using hasc c hc)]
  rw [map_ofNat_toNat]
  exact parsePayloadChars_dumps p

theorem splitOnDot_no_dot : ∀ (s : List Char), '.' ∉ s → splitOnDot s = [s]
  | [] => by intro _; rfl
  | c :: rest => by
    intro h
    have hc : c ≠ '.' := fun hc => h (by simp [hc])
    have hr := splitOnDot_no_dot rest (fun hm => h (by simp [hm]))
    simp [splitOnDot, hc, hr]

theorem splitOnDot_append : ∀ (a : List Char), '.' ∉ a →
    ∀ l, splitOnDot (a ++ '.' :: l) = a :: splitOnDot l
  | [] => by
    intro _ l
    simp [splitOnDot]
  | c :: rest => by
    intro h l
    have hc : c ≠ '.' := fun hc => h (by simp [hc])
    have hr := splitOnDot_append rest (fun hm => h (by simp [hm])) l
    simp only [List.cons_append, splitOnDot, List.append_eq]
    rw [if_neg hc, hr]

theorem base64urlEncode_no_dot (bs : List Nat) : '.' ∉ base64urlEncode bs :=
  fun h => (encodeBytes_no_pad bs '.' h).2 rfl

theorem compare_digest_self (a : List Char) : compare_digest a a = true := by
  simp [compare_digest]

theorem splitOnDot_three (a b c : List Char) (ha : '.' ∉ a) (hb : '.' ∉ b)
    (hc : '.' ∉ c) : splitOnDot (a ++ '.' :: (b ++ '.' :: c)) = [a, b, c] := by
  rw [splitOnDot_append a ha, splitOnDot_append b hb, splitOnDot_no_dot c hc]

/-- Evaluation of `_verify_jwt` on a token of the canonical three-segment
shape whose signature is the correctly recomputed one and whose payload
segment decodes and parses: the outcome is decided by the expiration check
alone. -/
theorem verify_jwt_signed_eval (mac : List Nat → List Nat → List Nat)
    (secret : List Nat) (now : Int) (encH encP : List Char)
    (pb : List Nat) (pl : Payload)
    (hh : '.' ∉ encH) (hp : '.' ∉ encP)
    (hdec : base64urlDecode encP = some pb)
    (hjson : jsonLoadsPayload pb = some pl) :
    _verify_jwt mac (encH ++ '.' :: (encP ++ '.' ::
        base64urlEncode (mac secret (utf8Encode (encH ++ '.' :: encP)))))
      secret now =
      (if utcfromtimestampOk pl.exp then
        (if pl.exp < now then none else some pl)
      else none) := by
  unfold _verify_jwt _verify_jwt_raw
  rw [splitOnDot_three encH encP _ hh hp (base64urlEncode_no_dot _)]
  simp only [compare_digest_self, if_true, hdec, hjson]
  by_cases h1 : utcfromtimestampOk pl.exp
  · simp only [h1, if_true]
    by_cases h2 : pl.exp < now
    · simp [h2]
    · simp [h2]
  · simp [h1]

/-- The token minted by `_generate_jwt`, written out segment by segment. -/
theorem generate_jwt_shape (mac : List Nat → List Nat → List Nat)
    (p : Payload) (secret : List Nat) :
    _generate_jwt mac p secret =
      base64urlEncode (utf8Encode headerJsonChars) ++ '.' ::
        (base64urlEncode (utf8Encode (jsonDumpsPayload p)) ++ '.' ::
          base64urlEncode (mac secret (utf8Encode
            (base64urlEncode (utf8Encode headerJsonChars) ++ '.' ::
              base64urlEncode (utf8Encode (jsonDumpsPayload p)))))) := rfl

/-- A token that does not split into exactly three segments verifies to
`None`. -/
theorem verify_not_three (mac : List Nat → List Nat → List Nat)
    (token : List Char) (secret : List Nat) (now : Int)
    (h : (splitOnDot token).length ≠ 3) :
    _verify_jwt mac token secret now = none := by
  unfold _verify_jwt _verify_jwt_raw
  generalize hp : splitOnDot token = parts at h ⊢
  rcases parts with _ | ⟨a, _ | ⟨b, _ | ⟨c, _ | ⟨d, rest⟩⟩⟩⟩
  · rfl
  · rfl
  · rfl
  · exact absurd (by simp) h
  · rfl

/-- A three-segment token whose signature segment differs from the
recomputed one verifies to `None`. -/
theorem verify_bad_signature (mac : List Nat → List Nat → List Nat)
    (secret : List Nat) (now : Int) (a b c : List Char)
    (ha : '.' ∉ a) (hb : '.' ∉ b) (hc : '.' ∉ c)
    (hne : c ≠ base64urlEncode (mac secret (utf8Encode (a ++ '.' :: b)))) :
    _verify_jwt mac (a ++ '.' :: (b ++ '.' :: c)) secret now = none := by
  unfold _verify_jwt _verify_jwt_raw
  rw [splitOnDot_three a b c ha hb hc]
  have : compare_digest c (base64urlEncode (mac secret (utf8Encode (a ++ '.' :: b)))) = false := by
    simp [compare_digest, hne]
  simp [this]

/-- A correctly signed token whose payload parses is rejected whenever the
current instant is strictly past its expiration. -/
theorem verify_expired_aux (mac : List Nat → List Nat → List Nat)
    (secret : List Nat) (now : Int) (encH encP : List Char)
    (pb : List Nat) (pl : Payload)
    (hh : '.' ∉ encH) (hp : '.' ∉ encP)
    (hdec : base64urlDecode encP = some pb)
    (hjson : jsonLoadsPayload pb = some pl)
    (hexp : pl.exp < now) :
    _verify_jwt mac (encH ++ '.' :: (encP ++ '.' ::
        base64urlEncode (mac secret (utf8Encode (encH ++ '.' :: encP)))))
      secret now = none := by
  rw [verify_jwt_signed_eval mac secret now encH encP pb pl hh hp hdec hjson]
  by_cases h1 : utcfromtimestampOk pl.exp
  · simp [h1, hexp]
  · simp [h1]

/-- A duplicate registration fails and leaves the store unchanged. -/
theorem register_duplicate (sha : String → String) (pepper : String)
    (store : List UserRecord) (username password salt : String)
    (h : ∃ r ∈ store, r.username = username) :
    register_user sha pepper store username password salt = (false, store) := by
  unfold register_user
  rw [if_pos]
  rw [List.any_eq_true]
  obtain ⟨r, hr, he⟩ := h
  exact ⟨r, hr, by simp [he]⟩

/-- Searching a list whose prefix contains no match continues in the
suffix. -/
theorem find?_append_of_none {α : Type} (p : α → Bool) :
    ∀ (l1 l2 : List α), (∀ x ∈ l1, p x = false) →
      List.find? p (l1 ++ l2) = List.find? p l2
  | [], l2 => by intro _; rfl
  | x :: l1, l2 => by
    intro h
    rw [List.cons_append, List.find?_cons, h x (by simp)]
    exact find?_append_of_none p l1 l2 (fun y hy => h y (by simp [hy]))

/-- Looking up the changed user in the updated store finds the record with
only the digest replaced. -/
theorem find_user_map_hash (store : List UserRecord) (u : String)
    (r : UserRecord) (newhash : String) (hfind : find_user store u = some r) :
    find_user (store.map (fun s =>
        if s.username = u then { s with password_hash := newhash } else s)) u =
      some { r with password_hash := newhash } := by
  induction store with
  | nil => simp [find_user] at hfind
  | cons s store ih =>
    by_cases hs : s.username = u
    · have : find_user (s :: store) u = some s := by
        simp [find_user, List.find?_cons, hs]
      rw [this] at hfind
      injection hfind with hfind
      subst hfind
      simp only [List.map_cons, if_pos hs]
      simp [find_user, List.find?_cons, hs]
    · have h1 : find_user (s :: store) u = find_user store u := by
        simp [find_user, List.find?_cons, hs]
      rw [h1] at hfind
      simp only [List.map_cons, if_neg hs]
      have h2 : find_user ((if s.username = u then { s with password_hash := newhash }
          else s) :: store.map (fun s =>
            if s.username = u then { s with password_hash := newhash } else s)) u =
          find_user (store.map (fun s =>
            if s.username = u then { s with password_hash := newhash } else s)) u := by
        simp [find_user, List.find?_cons, hs]
      rw [if_neg hs] at h2
      rw [h2]
      exact ih hfind

/-- Updating the digest of one user preserves every username and salt and
leaves other users' records untouched. -/
theorem map_hash_frame (store : List UserRecord) (u newhash : String) :
    (store.map (fun s => if s.username = u then { s with password_hash := newhash }
        else s)).map (fun s => s.username) = store.map (fun s => s.username) ∧
    (store.map (fun s => if s.username = u then { s with password_hash := newhash }
        else s)).map (fun s => s.salt) = store.map (fun s => s.salt) ∧
    (∀ s ∈ store, s.username ≠ u →
      s ∈ store.map (fun s => if s.username = u then { s with password_hash := newhash }
        else s)) := by
  refine ⟨?_, ?_, ?_⟩
  · rw [List.map_map]
    refine List.map_congr_left ?_
    intro s _
    by_cases hs : s.username = u <;> simp [hs]
  · rw [List.map_map]
    refine List.map_congr_left ?_
    intro s _
    by_cases hs : s.username = u <;> simp [hs]
  · intro s hs hne
    rw [List.mem_map]
    exact ⟨s, hs, by simp [hne]⟩

/-- C1 (amended): for every payload of a username and an expiration instant
`exp` that is still in the future at verification time and lies inside the
domain of `datetime.utcfromtimestamp` (years 1..9999, i.e.
`-62135596800 ≤ exp ≤ 253402300799`), verifying the token produced by
`_generate_jwt` with the server signing key yields exactly that payload. -/
theorem claim1_roundtrip (mac : List Nat → List Nat → List Nat)
    (secret : List Nat) (u : List Char) (e now : Int)
    (h1 : now < e) (h2 : -62135596800 ≤ e) (h3 : e ≤ 253402300799) :
    _verify_jwt mac (_generate_jwt mac ⟨u, e⟩ secret) secret now =
      some ⟨u, e⟩ := by
  rw [generate_jwt_shape,
    verify_jwt_signed_eval mac secret now _ _ _ ⟨u, e⟩
      (base64urlEncode_no_dot _) (base64urlEncode_no_dot _)
      (base64url_round_trip _ (utf8Encode_lt_256 _)) (jsonLoads_dumps _)]
  have hok : utcfromtimestampOk (⟨u, e⟩ : Payload).exp = true := by
    unfold utcfromtimestampOk
    exact decide_eq_true ⟨h2, h3⟩
  rw [hok, if_pos rfl, if_neg (by simp only []; omega)]

/-- Witness for C1: a concrete round trip with the server signing key. -/
theorem claim1_witness :
    (0 : Int) < 3600 ∧
    _verify_jwt mac0 (_generate_jwt mac0 ⟨("alice").toList, 3600⟩ SECRET_KEY)
      SECRET_KEY 0 = some ⟨("alice").toList, 3600⟩ :=
  ⟨by decide, claim1_roundtrip mac0 SECRET_KEY ("alice").toList 3600 0
    (by decide) (by decide) (by decide)⟩

/-- C1 counterexample: an expiration instant in the future but beyond the
year-9999 domain of `datetime.utcfromtimestamp` makes the round trip fail
(the conversion raises, the catch-all returns `None`), so the claim as
stated — for *every* future expiration instant — is false on the code. -/
theorem claim1_counterexample :
    (0 : Int) < 253402300800 ∧
    _verify_jwt mac0 (_generate_jwt mac0 ⟨("alice").toList, 253402300800⟩ SECRET_KEY)
      SECRET_KEY 0 ≠ some ⟨("alice").toList, 253402300800⟩ := by
  refine ⟨by decide, ?_⟩
  rw [generate_jwt_shape,
    verify_jwt_signed_eval mac0 SECRET_KEY 0 _ _ _ ⟨("alice").toList, 253402300800⟩
      (base64urlEncode_no_dot _) (base64urlEncode_no_dot _)
      (base64url_round_trip _ (utf8Encode_lt_256 _)) (jsonLoads_dumps _)]
  rw [show utcfromtimestampOk (⟨("alice").toList, 253402300800⟩ : Payload).exp = false
    from by decide]
  simp

/-- C2 (amended): for every token of the canonical three-segment shape
whose signature is the correctly recomputed MAC and whose payload segment
decodes and parses to a payload with expiration `exp`, verification fails
(returns `None`) whenever the current instant is strictly greater than
`exp`; at the exact instant `exp` the token is still accepted (see the
counterexample). -/
theorem claim2_expiry (mac : List Nat → List Nat → List Nat)
    (secret : List Nat) (now : Int) (encH encP : List Char)
    (pb : List Nat) (pl : Payload)
    (hh : '.' ∉ encH) (hp : '.' ∉ encP)
    (hdec : base64urlDecode encP = some pb)
    (hjson : jsonLoadsPayload pb = some pl)
    (hexp : pl.exp < now) :
    _verify_jwt mac (encH ++ '.' :: (encP ++ '.' ::
        base64urlEncode (mac secret (utf8Encode (encH ++ '.' :: encP)))))
      secret now = none :=
  verify_expired_aux mac secret now encH encP pb pl hh hp hdec hjson hexp

/-- Witness for C2: a concrete expired token is rejected one second after
its expiration instant. -/
theorem claim2_witness :
    _verify_jwt mac0 (_generate_jwt mac0 ⟨("bob").toList, 5⟩ SECRET_KEY)
      SECRET_KEY 6 = none := by
  rw [generate_jwt_shape]
  exact claim2_expiry mac0 SECRET_KEY 6 _ _ _ ⟨("bob").toList, 5⟩
    (base64urlEncode_no_dot _) (base64urlEncode_no_dot _)
    (base64url_round_trip _ (utf8Encode_lt_256 _)) (jsonLoads_dumps _)
    (by decide)

/-- C2 counterexample: a validly signed token with `exp = 1000`, verified
at the exact instant 1000, is *accepted* (the code only rejects once the
instant is strictly past `exp`), refuting the claim that verification at
the exact instant `exp` is rejected. -/
theorem claim2_counterexample :
    _verify_jwt mac0 (_generate_jwt mac0 ⟨("bob").toList, 1000⟩ SECRET_KEY)
      SECRET_KEY 1000 = some ⟨("bob").toList, 1000⟩ := by
  rw [generate_jwt_shape,
    verify_jwt_signed_eval mac0 SECRET_KEY 1000 _ _ _ ⟨("bob").toList, 1000⟩
      (base64urlEncode_no_dot _) (base64urlEncode_no_dot _)
      (base64url_round_trip _ (utf8Encode_lt_256 _)) (jsonLoads_dumps _)]
  rw [show utcfromtimestampOk (⟨("bob").toList, 1000⟩ : Payload).exp = true
    from by decide]
  rw [if_pos rfl, if_neg (by decide)]

/-- C10: base64url decoding inverts base64url encoding for every byte
string, including the case where the unpadded encoding's length is a
multiple of four and the decoder re-appends four padding characters. -/
theorem claim10_base64_roundtrip (bs : List Nat) (h : ∀ x ∈ bs, x < 256) :
    base64urlDecode (base64urlEncode bs) = some bs :=
  base64url_round_trip bs h

/-- Witness for C10: a three-byte input, whose unpadded encoding has length
four (a multiple of four, so the decoder appends four `=` characters). -/
theorem claim10_witness :
    (∀ x ∈ [1, 2, 3], x < 256) ∧
    base64urlDecode (base64urlEncode [1, 2, 3]) = some [1, 2, 3] :=
  ⟨by decide, claim10_base64_roundtrip [1, 2, 3] (by decide)⟩

/-- C4 (amended): the failure paths are collapsed, not distinguishable:
every named failure kind of the token verifier (malformed token, bad
signature, expired token) yields the same generic value `None`, and every
named failure kind of the credential store (duplicate username, user not
found, invalid credentials) yields the same generic value `False` with the
store unchanged. -/
theorem claim4_collapsed :
    (∀ (mac : List Nat → List Nat → List Nat) (token : List Char)
        (secret : List Nat) (now : Int),
      (splitOnDot token).length ≠ 3 → _verify_jwt mac token secret now = none) ∧
    (∀ (mac : List Nat → List Nat → List Nat) (secret : List Nat) (now : Int)
        (a b c : List Char), '.' ∉ a → '.' ∉ b → '.' ∉ c →
      c ≠ base64urlEncode (mac secret (utf8Encode (a ++ '.' :: b))) →
      _verify_jwt mac (a ++ '.' :: (b ++ '.' :: c)) secret now = none) ∧
    (∀ (mac : List Nat → List Nat → List Nat) (secret : List Nat) (now : Int)
        (encH encP : List Char) (pb : List Nat) (pl : Payload),
      '.' ∉ encH → '.' ∉ encP → base64urlDecode encP = some pb →
      jsonLoadsPayload pb = some pl → pl.exp < now →
      _verify_jwt mac (encH ++ '.' :: (encP ++ '.' ::
        base64urlEncode (mac secret (utf8Encode (encH ++ '.' :: encP)))))
        secret now = none) ∧
    (∀ (sha : String → String) (pepper : String) (store : List UserRecord)
        (username password salt : String), (∃ r ∈ store, r.username = username) →
      register_user sha pepper store username password salt = (false, store)) ∧
    (∀ (sha : String → String) (pepper : String) (store : List UserRecord)
        (username oldp newp : String), find_user store username = none →
      change_password sha pepper store username oldp newp = (false, store)) ∧
    (∀ (sha : String → String) (pepper : String) (store : List UserRecord)
        (username oldp newp : String) (r : UserRecord),
      find_user store username = some r →
      _hash_password sha pepper oldp r.salt ≠ r.password_hash →
      change_password sha pepper store username oldp newp = (false, store)) := by
  refine ⟨?_, ?_, ?_, ?_, ?_, ?_⟩
  · exact verify_not_three
  · exact fun mac secret now a b c => verify_bad_signature mac secret now a b c
  · exact fun mac secret now encH encP pb pl => verify_expired_aux mac secret now encH encP pb pl
  · exact register_duplicate
  · intro sha pepper store username oldp newp h
    unfold change_password
    rw [h]
  · intro sha pepper store username oldp newp r hfind hne
    unfold change_password
    simp only [hfind]
    rw [if_pos hne]

/-- Witness for C4: concrete failures of each kind, all mapped to the same
generic values. -/
theorem claim4_witness :
    _verify_jwt mac0 ("nodots").toList SECRET_KEY 0 = none ∧
    register_user sha0 "pep" store1 "alice" "x" "t" = (false, store1) ∧
    change_password sha0 "pep" store1 "ghost" "a" "b" = (false, store1) ∧
    change_password sha0 "pep" store1 "alice" "wrong" "b" = (false, store1) :=
  ⟨claim4_collapsed.1 mac0 ("nodots").toList SECRET_KEY 0 (by decide),
   claim4_collapsed.2.2.2.1 sha0 "pep" store1 "alice" "x" "t"
     ⟨⟨"alice", "aspep", "s"⟩, by decide, rfl⟩,
   claim4_collapsed.2.2.2.2.1 sha0 "pep" store1 "ghost" "a" "b" (by decide),
   claim4_collapsed.2.2.2.2.2 sha0 "pep" store1 "alice" "wrong" "b"
     ⟨"alice", "aspep", "s"⟩ (by decide) (by decide)⟩

/-- C4 counterexample: two failures of different named kinds — a malformed
token (wrong segment count) and an expired token — produce the *identical*
outcome `None`, and a duplicate registration and a wrong-old-password
change produce the identical outcome `False`; the failure kinds are not
distinguishable from the returned values, refuting the claim. -/
theorem claim4_counterexample :
    _verify_jwt mac0 ("nodots").toList SECRET_KEY 0 =
      _verify_jwt mac0 (_generate_jwt mac0 ⟨("bob").toList, 5⟩ SECRET_KEY)
        SECRET_KEY 6 ∧
    _verify_jwt mac0 ("nodots").toList SECRET_KEY 0 = none ∧
    (register_user sha0 "pep" store1 "alice" "x" "t").1 =
      (change_password sha0 "pep" store1 "alice" "wrong" "b").1 ∧
    (register_user sha0 "pep" store1 "alice" "x" "t").1 = false := by
  have h1 := verify_not_three mac0 ("nodots").toList SECRET_KEY 0 (by decide)
  have h2 : _verify_jwt mac0 (_generate_jwt mac0 ⟨("bob").toList, 5⟩ SECRET_KEY)
      SECRET_KEY 6 = none := by
    rw [generate_jwt_shape]
    exact verify_expired_aux mac0 SECRET_KEY 6 _ _ _ ⟨("bob").toList, 5⟩
      (base64urlEncode_no_dot _) (base64urlEncode_no_dot _)
      (base64url_round_trip _ (utf8Encode_lt_256 _)) (jsonLoads_dumps _) (by decide)
  exact ⟨h1.trans h2.symm, h1, by decide, by decide⟩

/-- C5: `verify_user` returns false when the username is absent; when a
record exists, it returns true exactly when the digest recomputed from the
supplied password, the stored salt and the pepper equals the stored digest;
and the returned value for an unknown username equals the returned value
for a wrong password (both plain false). -/
theorem claim5_verify_semantics (sha : String → String) (pepper : String)
    (store : List UserRecord) (u p : String) :
    (find_user store u = none → verify_user sha pepper store u p = false) ∧
    (∀ r, find_user store u = some r →
      (verify_user sha pepper store u p = true ↔
        _hash_password sha pepper p r.salt = r.password_hash)) ∧
    (∀ u2 p2 r, find_user store u2 = none → find_user store u = some r →
      _hash_password sha pepper p r.salt ≠ r.password_hash →
      verify_user sha pepper store u2 p2 = verify_user sha pepper store u p) := by
  refine ⟨?_, ?_, ?_⟩
  · intro h
    unfold verify_user
    rw [h]
  · intro r h
    unfold verify_user
    rw [h]
    by_cases hh : _hash_password sha pepper p r.salt = r.password_hash
    · simp [hh]
    · simp [hh]
  · intro u2 p2 r h2 h1 hne
    unfold verify_user
    simp only [h1, h2]
    rw [if_neg hne]

/-- Witness for C5: a concrete store where the unknown-user result and the
wrong-password result are the same plain false, and the correct password
verifies. -/
theorem claim5_witness :
    verify_user sha0 "pep" store1 "ghost" "a" = false ∧
    verify_user sha0 "pep" store1 "alice" "a" = true ∧
    verify_user sha0 "pep" store1 "ghost" "zzz" =
      verify_user sha0 "pep" store1 "alice" "wrong" :=
  ⟨(claim5_verify_semantics sha0 "pep" store1 "ghost" "a").1 (by decide),
   ((claim5_verify_semantics sha0 "pep" store1 "alice" "a").2.1
     ⟨"alice", "aspep", "s"⟩ (by decide)).mpr (by decide),
   (claim5_verify_semantics sha0 "pep" store1 "alice" "wrong").2.2 "ghost" "zzz"
     ⟨"alice", "aspep", "s"⟩ (by decide) (by decide) (by decide)⟩

/-- C6 (amended): for a registered user, `change_password` with a
non-verifying old password fails and leaves the store unchanged; with the
correct old password it succeeds, after which `verify_user` with the new
password returns true, and `verify_user` with the old password returns
false provided the new password's digest differs from the old one's (with
the stored salt) — for equal digests, in particular for `old = new`, the
old password still verifies (see the counterexample). -/
theorem claim6_change_password (sha : String → String) (pepper : String)
    (store : List UserRecord) (u old new : String) (r : UserRecord)
    (hfind : find_user store u = some r) :
    (_hash_password sha pepper old r.salt ≠ r.password_hash →
      change_password sha pepper store u old new = (false, store)) ∧
    (_hash_password sha pepper old r.salt = r.password_hash →
      (change_password sha pepper store u old new).1 = true ∧
      verify_user sha pepper (change_password sha pepper store u old new).2 u new
        = true ∧
      (_hash_password sha pepper new r.salt ≠ _hash_password sha pepper old r.salt →
        verify_user sha pepper (change_password sha pepper store u old new).2 u old
          = false)) := by
  constructor
  · intro hne
    unfold change_password
    simp only [hfind]
    rw [if_pos hne]
  · intro heq
    have hred : change_password sha pepper store u old new =
        (true, store.map (fun s => if s.username = u then
          { s with password_hash := _hash_password sha pepper new r.salt }
          else s)) := by
      unfold change_password
      simp only [hfind]
      rw [if_neg (fun hcon => hcon heq)]
    refine ⟨by rw [hred], ?_, ?_⟩
    · rw [hred]
      unfold verify_user
      simp only [find_user_map_hash store u r _ hfind]
      simp
    · intro hneq
      rw [hred]
      unfold verify_user
      simp only [find_user_map_hash store u r _ hfind]
      rw [if_neg (fun hcon => hneq hcon.symm)]

/-- Witness for C6: changing alice's password from `a` to `b` succeeds,
after which `b` verifies and `a` no longer does. -/
theorem claim6_witness :
    (change_password sha0 "pep" store1 "alice" "a" "b").1 = true ∧
    verify_user sha0 "pep" (change_password sha0 "pep" store1 "alice" "a" "b").2
      "alice" "b" = true ∧
    verify_user sha0 "pep" (change_password sha0 "pep" store1 "alice" "a" "b").2
      "alice" "a" = false := by
  have h := (claim6_change_password sha0 "pep" store1 "alice" "a" "b"
    ⟨"alice", "aspep", "s"⟩ (by decide)).2 (by decide)
  exact ⟨h.1, h.2.1, h.2.2 (by decide)⟩

/-- C6 counterexample: changing a password to itself succeeds, and the old
password (equal to the new one) still verifies afterwards — refuting the
claim that after every successful change the old password fails
verification. -/
theorem claim6_counterexample :
    (change_password sha0 "pep" store1 "alice" "a" "a").1 = true ∧
    verify_user sha0 "pep" (change_password sha0 "pep" store1 "alice" "a" "a").2
      "alice" "a" = true := by
  decide

/-- C7: registering a fresh username and then verifying the same username
and password returns true. -/
theorem claim7_register_verify (sha : String → String) (pepper : String)
    (store : List UserRecord) (u p salt : String)
    (hfresh : ∀ r ∈ store, r.username ≠ u) :
    (register_user sha pepper store u p salt).1 = true ∧
    verify_user sha pepper (register_user sha pepper store u p salt).2 u p
      = true := by
  have hany : store.any (fun r => r.username == u) = false := by
    rw [List.any_eq_false]
    intro r hr
    simp [hfresh r hr]
  have hred : register_user sha pepper store u p salt =
      (true, store ++ [⟨u, _hash_password sha pepper p salt, salt⟩]) := by
    unfold register_user
    rw [hany]
    rfl
  refine ⟨by rw [hred], ?_⟩
  rw [hred]
  unfold verify_user find_user
  rw [find?_append_of_none _ store _ (fun r hr => by simp [hfresh r hr])]
  simp [List.find?_cons]

/-- Witness for C7: registering a second user and verifying them. -/
theorem claim7_witness :
    (register_user sha0 "pep" store1 "carol" "pw" "t").1 = true ∧
    verify_user sha0 "pep" (register_user sha0 "pep" store1 "carol" "pw" "t").2
      "carol" "pw" = true :=
  claim7_register_verify sha0 "pep" store1 "carol" "pw" "t" (by decide)

/-- C8: the public verification interfaces are total: any exception raised
inside the body of `_verify_jwt` is caught and surfaced as `None`, the
verifier always returns a value (`None` or a payload), and `verify_user`
always returns a boolean. -/
theorem claim8_total (mac : List Nat → List Nat → List Nat) (token : List Char)
    (secret : List Nat) (now : Int) (sha : String → String) (pepper : String)
    (store : List UserRecord) (u p : String) :
    (∀ e, _verify_jwt_raw mac token secret now = Except.error e →
      _verify_jwt mac token secret now = none) ∧
    (_verify_jwt mac token secret now = none ∨
      ∃ pl, _verify_jwt mac token secret now = some pl) ∧
    (verify_user sha pepper store u p = true ∨
      verify_user sha pepper store u p = false) := by
  refine ⟨?_, ?_, ?_⟩
  · intro e he
    unfold _verify_jwt
    rw [he]
  · cases hv : _verify_jwt mac token secret now with
    | none => exact Or.inl rfl
    | some pl => exact Or.inr ⟨pl, rfl⟩
  · cases hb : verify_user sha pepper store u p with
    | true => exact Or.inl rfl
    | false => exact Or.inr rfl

/-- Witness for C8: on a token whose body raises, the raw body is an
exception and the public interface still returns `None`. -/
theorem claim8_witness :
    _verify_jwt_raw mac0 badTok SECRET_KEY 0 = Except.error PyExn.binasciiError ∧
    _verify_jwt mac0 badTok SECRET_KEY 0 = none :=
  ⟨by rfl,
   (claim8_total mac0 badTok SECRET_KEY 0 sha0 "pep" [] "x" "y").1
     PyExn.binasciiError (by rfl)⟩

/-- C9: a successful `change_password` rewrites the store so that only the
matching user's `password_hash` changes — computed with the *stored* salt —
while every username and every salt is preserved, and every other user's
record is untouched. -/
theorem claim9_frame (sha : String → String) (pepper : String)
    (store : List UserRecord) (u old new : String) (store2 : List UserRecord)
    (h : change_password sha pepper store u old new = (true, store2)) :
    ∃ r, find_user store u = some r ∧
      store2 = store.map (fun s => if s.username = u then
        { s with password_hash := _hash_password sha pepper new r.salt } else s) ∧
      store2.map (fun s => s.username) = store.map (fun s => s.username) ∧
      store2.map (fun s => s.salt) = store.map (fun s => s.salt) ∧
      ∀ s ∈ store, s.username ≠ u → s ∈ store2 := by
  unfold change_password at h
  cases hf : find_user store u with
  | none =>
    rw [hf] at h
    simp at h
  | some r =>
    simp only [hf] at h
    by_cases hne : _hash_password sha pepper old r.salt ≠ r.password_hash
    · rw [if_pos hne] at h
      simp at h
    · rw [if_neg hne] at h
      have h2 : store2 = store.map (fun s => if s.username = u then
          { s with password_hash := _hash_password sha pepper new r.salt }
          else s) := by
        have := congrArg Prod.snd h
        simpa using this.symm
      obtain ⟨ha, hb, hc⟩ := map_hash_frame store u (_hash_password sha pepper new r.salt)
      exact ⟨r, rfl, h2, by rw [h2]; exact ha, by rw [h2]; exact hb,
        by rw [h2]; exact hc⟩

/-- Witness for C9: the concrete change of alice's password preserves all
usernames and salts. -/
theorem claim9_witness :
    (change_password sha0 "pep" store1 "alice" "a" "b").2.map
      (fun s => s.username) = store1.map (fun s => s.username) ∧
    (change_password sha0 "pep" store1 "alice" "a" "b").2.map
      (fun s => s.salt) = store1.map (fun s => s.salt) := by
  obtain ⟨r, h1, h2, h3, h4, h5⟩ := claim9_frame sha0 "pep" store1 "alice" "a" "b"
    (change_password sha0 "pep" store1 "alice" "a" "b").2 (by decide)
  exact ⟨h3, h4⟩

end TaskTide

